import Mathlib

/-!
Verification of the livestream-state endpoint (`/api/livestream`).

The decision core is `pickStateFromVideos` (grace-window variant,
src/unnamed/part_001, lines 94-149), together with the cache-lifetime
derivation in its request handler (lines 189-227).  The upload-playlist
memoization is `getUploadsPlaylistId` (lines 46-62), and the error
boundary with the debug flag is in src/unnamed/part_000 (lines 80-133).

Timestamps are JavaScript epoch-millisecond numbers, modelled as `Int`
(`Date.parse` can return negative values for pre-1970 dates).  A JSON
time field is either absent (or the empty string, which is falsy and
unparseable, hence observationally identical), present but unparseable
(`Date.parse` yields NaN), or present and parseable to some integer.
-/

/-- A `liveStreamingDetails` time field as the JS code observes it:
truthiness (`d?.field && ...`) and parseability (`Date.parse`). -/
inductive TimeField where
  | absent
  | unparseable
  | parsed (t : Int)
deriving DecidableEq, Repr

/-- JS truthiness of the raw field: absent (or empty string) is falsy,
any non-empty string is truthy. -/
def TimeField.truthy : TimeField → Bool
  | TimeField.absent => false
  | TimeField.unparseable => true
  | TimeField.parsed _ => true

/-- `Date.parse` composed with the `Number.isFinite` check: `some t`
exactly when the field parses to a finite epoch-millisecond value. -/
def TimeField.parseMs : TimeField → Option Int
  | TimeField.parsed t => some t
  | _ => Option.none

/-- A candidate video with its `liveStreamingDetails` (spec §3
VideoCandidate). -/
structure Video where
  id : String
  scheduledStartTime : TimeField
  actualStartTime : TimeField
  actualEndTime : TimeField
deriving DecidableEq, Repr

/-- The record built for each parseable scheduled candidate
(part_001 lines 105-116). -/
structure Sched where
  id : String
  t : Int
  hasActualStart : Bool
  hasActualEnd : Bool
deriving DecidableEq, Repr

/-- The enumerated state variants. -/
inductive LState where
  | live
  | upcoming
  | replay
  | none
deriving DecidableEq, Repr

/-- The StateResult payload `{state, videoId, upcomingStartMs}`. -/
structure StateResult where
  state : LState
  videoId : Option String
  upcomingStartMs : Option Int
deriving DecidableEq, Repr

/-- Live predicate of part_001 lines 98-101: `actualStartTime` truthy
and `actualEndTime` falsy. -/
def Video.isLiveNow (v : Video) : Bool :=
  v.actualStartTime.truthy && !v.actualEndTime.truthy

/-- part_001 lines 105-116: map each video to its parsed scheduled
record and keep only the finitely-parseable ones. -/
def scheduledOf (videos : List Video) : List Sched :=
  videos.filterMap fun v =>
    match v.scheduledStartTime.parseMs with
    | some t =>
        some ⟨v.id, t, v.actualStartTime.truthy, v.actualEndTime.truthy⟩
    | Option.none => Option.none

/-- Keep `x` unless the best-of-rest strictly beats it downward: the
earlier element wins ties, matching a stable sort. -/
def pick2Min {α : Type} (key : α → Int) (x : α) : Option α → α
  | Option.none => x
  | some m => if key m < key x then m else x

/-- Keep `x` unless the best-of-rest strictly beats it upward. -/
def pick2Max {α : Type} (key : α → Int) (x : α) : Option α → α
  | Option.none => x
  | some m => if key x < key m then m else x

/-- First element with minimal key (stable ascending sort by key then
`[0]`, as in part_001 line 121). -/
def firstMinBy {α : Type} (key : α → Int) : List α → Option α
  | [] => Option.none
  | x :: xs => some (pick2Min key x (firstMinBy key xs))

/-- First element with maximal key (stable descending sort by key then
`[0]`, as in part_001 lines 127 and 139-143). -/
def firstMaxBy {α : Type} (key : α → Int) : List α → Option α
  | [] => Option.none
  | x :: xs => some (pick2Max key x (firstMaxBy key xs))

/-- Future-upcoming filter of part_001 line 120: not ended and
scheduled strictly after `now`. -/
def futureList (videos : List Video) (now : Int) : List Sched :=
  (scheduledOf videos).filter fun x =>
    !x.hasActualEnd && decide (now < x.t)

/-- Grace filter of part_001 line 126: not ended, not started, due at
or before `now`, and late by at most `graceMs`. -/
def graceList (videos : List Video) (now graceMs : Int) : List Sched :=
  (scheduledOf videos).filter fun x =>
    !x.hasActualEnd && !x.hasActualStart &&
      decide (x.t ≤ now) && decide (now - x.t ≤ graceMs)

/-- Completed filter of part_001 line 138: `actualEndTime` truthy. -/
def completedList (videos : List Video) : List Video :=
  videos.filter fun v => v.actualEndTime.truthy

/-- Sort key of the replay comparator (part_001 lines 140-142): the
parsed end time when finite, otherwise `0`. -/
def endKeyOf (v : Video) : Int :=
  match v.actualEndTime.parseMs with
  | some t => t
  | Option.none => 0

/-- The state selector `pickStateFromVideos` of part_001 lines 94-149
(spec §4.2 `selectState(candidates, now, graceMs)`), with the ambient
`Date.now()` and `GRACE_MS` passed explicitly. -/
def pickStateFromVideos (videos : List Video) (now graceMs : Int) :
    StateResult :=
  match videos.find? Video.isLiveNow with
  | some v => ⟨LState.live, some v.id, Option.none⟩
  | Option.none =>
    match firstMaxBy Sched.t (graceList videos now graceMs) with
    | some p => ⟨LState.upcoming, some p.id, some p.t⟩
    | Option.none =>
      match firstMinBy Sched.t (futureList videos now) with
      | some p => ⟨LState.upcoming, some p.id, some p.t⟩
      | Option.none =>
        match firstMaxBy endKeyOf (completedList videos) with
        | some c => ⟨LState.replay, some c.id, Option.none⟩
        | Option.none => ⟨LState.none, Option.none, Option.none⟩

/-- Cache-lifetime derivation of part_001 lines 189-220, as a function
of the selected result, `Date.now()` and `GRACE_MS`.  Note the JS guard
`result.upcomingStartMs && ...` is a NUMBER truthiness test, so an
epoch-millisecond value of exactly `0` falls through to the default
(replay/none) branch. -/
def cacheSecondsFor (result : StateResult) (now graceMs : Int) : Int :=
  match result.state, result.upcomingStartMs with
  | LState.upcoming, some t =>
    if t = 0 then 600
    else
      let diff := t - now
      let absLate : Int := if diff < 0 then -diff else 0
      if diff ≤ 0 ∧ absLate ≤ graceMs then 5
      else if 2 * 60 * 60 * 1000 < diff then 1800
      else if 30 * 60 * 1000 < diff then 300
      else 20
  | LState.upcoming, Option.none => 600
  | LState.live, _ => 10
  | LState.replay, _ => 600
  | LState.none, _ => 600

/-! ## Helper lemmas -/

theorem firstMaxBy_eq_none {α : Type} (key : α → Int) (l : List α)
    (h : firstMaxBy key l = Option.none) : l = [] := by
  cases l with
  | nil => rfl
  | cons x xs => cases h

theorem firstMinBy_eq_none {α : Type} (key : α → Int) (l : List α)
    (h : firstMinBy key l = Option.none) : l = [] := by
  cases l with
  | nil => rfl
  | cons x xs => cases h

theorem firstMaxBy_spec {α : Type} (key : α → Int) (l : List α) (m : α)
    (h : firstMaxBy key l = some m) :
    m ∈ l ∧ ∀ x ∈ l, key x ≤ key m := by
  induction l generalizing m with
  | nil => cases h
  | cons x xs ih =>
    unfold firstMaxBy at h
    injection h with h
    cases h' : firstMaxBy key xs with
    | none =>
      rw [h'] at h
      have hxs : xs = [] := firstMaxBy_eq_none key xs h'
      subst hxs
      simp only [pick2Min, pick2Max] at h
      subst h
      refine ⟨List.mem_singleton_self x, ?_⟩
      intro y hy
      rcases List.mem_singleton.mp hy with rfl
      exact le_refl _
    | some mx =>
      rw [h'] at h
      obtain ⟨hmem, hball⟩ := ih mx h'
      by_cases hc : key x < key mx
      · simp only [pick2Max, if_pos hc] at h
        subst h
        refine ⟨List.mem_cons_of_mem _ hmem, ?_⟩
        intro y hy
        rcases List.mem_cons.mp hy with rfl | hyx
        · exact le_of_lt hc
        · exact hball y hyx
      · simp only [pick2Max, if_neg hc] at h
        subst h
        refine ⟨List.mem_cons_self _ _, ?_⟩
        intro y hy
        rcases List.mem_cons.mp hy with rfl | hyx
        · exact le_refl _
        · exact le_trans (hball y hyx) (le_of_not_lt hc)

theorem firstMinBy_spec {α : Type} (key : α → Int) (l : List α) (m : α)
    (h : firstMinBy key l = some m) :
    m ∈ l ∧ ∀ x ∈ l, key m ≤ key x := by
  induction l generalizing m with
  | nil => cases h
  | cons x xs ih =>
    unfold firstMinBy at h
    injection h with h
    cases h' : firstMinBy key xs with
    | none =>
      rw [h'] at h
      have hxs : xs = [] := firstMinBy_eq_none key xs h'
      subst hxs
      simp only [pick2Min] at h
      subst h
      refine ⟨List.mem_singleton_self x, ?_⟩
      intro y hy
      rcases List.mem_singleton.mp hy with rfl
      exact le_refl _
    | some mx =>
      rw [h'] at h
      obtain ⟨hmem, hball⟩ := ih mx h'
      by_cases hc : key mx < key x
      · simp only [pick2Min, if_pos hc] at h
        subst h
        refine ⟨List.mem_cons_of_mem _ hmem, ?_⟩
        intro y hy
        rcases List.mem_cons.mp hy with rfl | hyx
        · exact le_of_lt hc
        · exact hball y hyx
      · simp only [pick2Min, if_neg hc] at h
        subst h
        refine ⟨List.mem_cons_self _ _, ?_⟩
        intro y hy
        rcases List.mem_cons.mp hy with rfl | hyx
        · exact le_refl _
        · exact le_trans (le_of_not_lt hc) (hball y hyx)

theorem firstMaxBy_isSome {α : Type} (key : α → Int) (l : List α)
    (h : l ≠ []) : ∃ m, firstMaxBy key l = some m := by
  cases l with
  | nil => exact absurd rfl h
  | cons x xs => exact ⟨_, rfl⟩

theorem firstMinBy_isSome {α : Type} (key : α → Int) (l : List α)
    (h : l ≠ []) : ∃ m, firstMinBy key l = some m := by
  cases l with
  | nil => exact absurd rfl h
  | cons x xs => exact ⟨_, rfl⟩

theorem mem_scheduledOf (videos : List Video) (c : Sched) :
    c ∈ scheduledOf videos ↔
      ∃ v ∈ videos, v.scheduledStartTime.parseMs = some c.t ∧
        v.id = c.id ∧ v.actualStartTime.truthy = c.hasActualStart ∧
        v.actualEndTime.truthy = c.hasActualEnd := by
  unfold scheduledOf
  rw [List.mem_filterMap]
  constructor
  · rintro ⟨v, hv, hf⟩
    cases hp : v.scheduledStartTime.parseMs with
    | none => rw [hp] at hf; cases hf
    | some t =>
      rw [hp] at hf
      injection hf with hf
      subst hf
      exact ⟨v, hv, hp, rfl, rfl, rfl⟩
  · rintro ⟨v, hv, hp, hid, hs, he⟩
    refine ⟨v, hv, ?_⟩
    rw [hp]
    cases c
    simp only [Sched.mk.injEq] at hid hs he ⊢
    exact congrArg some (by simp_all)

theorem mem_graceList (videos : List Video) (now graceMs : Int)
    (c : Sched) :
    c ∈ graceList videos now graceMs ↔
      (∃ v ∈ videos, v.scheduledStartTime.parseMs = some c.t ∧
        v.id = c.id ∧ v.actualStartTime.truthy = c.hasActualStart ∧
        v.actualEndTime.truthy = c.hasActualEnd) ∧
      c.hasActualEnd = false ∧ c.hasActualStart = false ∧
      c.t ≤ now ∧ now - c.t ≤ graceMs := by
  unfold graceList
  rw [List.mem_filter, mem_scheduledOf]
  constructor
  · rintro ⟨hmem, hcond⟩
    simp only [Bool.and_eq_true, Bool.not_eq_true', decide_eq_true_eq]
      at hcond
    exact ⟨hmem, hcond.1.1.1, hcond.1.1.2, hcond.1.2, hcond.2⟩
  · rintro ⟨hmem, he, hs, h1, h2⟩
    refine ⟨hmem, ?_⟩
    simp only [Bool.and_eq_true, Bool.not_eq_true', decide_eq_true_eq]
    exact ⟨⟨⟨he, hs⟩, h1⟩, h2⟩

theorem mem_futureList (videos : List Video) (now : Int) (c : Sched) :
    c ∈ futureList videos now ↔
      (∃ v ∈ videos, v.scheduledStartTime.parseMs = some c.t ∧
        v.id = c.id ∧ v.actualStartTime.truthy = c.hasActualStart ∧
        v.actualEndTime.truthy = c.hasActualEnd) ∧
      c.hasActualEnd = false ∧ now < c.t := by
  unfold futureList
  rw [List.mem_filter, mem_scheduledOf]
  constructor
  · rintro ⟨hmem, hcond⟩
    simp only [Bool.and_eq_true, Bool.not_eq_true', decide_eq_true_eq]
      at hcond
    exact ⟨hmem, hcond.1, hcond.2⟩
  · rintro ⟨hmem, he, h1⟩
    refine ⟨hmem, ?_⟩
    simp only [Bool.and_eq_true, Bool.not_eq_true', decide_eq_true_eq]
    exact ⟨he, h1⟩

theorem mem_completedList (videos : List Video) (v : Video) :
    v ∈ completedList videos ↔
      v ∈ videos ∧ v.actualEndTime.truthy = true := by
  unfold completedList
  exact List.mem_filter

/-! ## Claims -/

/-- Claim C8: for the empty candidate list, and for every `now` and
`graceMs`, the selector returns exactly
`{state: none, videoId: absent, upcomingStartMs: absent}`. -/
theorem c8_empty_yields_none (now graceMs : Int) :
    pickStateFromVideos [] now graceMs =
      ⟨LState.none, Option.none, Option.none⟩ := rfl

/-- Claim C9: in every result of the selector, `upcomingStartMs` is
present iff the state is `upcoming`, and `videoId` is present iff the
state is not `none`. -/
theorem c9_field_presence (videos : List Video) (now graceMs : Int) :
    ((pickStateFromVideos videos now graceMs).upcomingStartMs.isSome
        = true ↔
      (pickStateFromVideos videos now graceMs).state = LState.upcoming) ∧
    ((pickStateFromVideos videos now graceMs).videoId.isSome = true ↔
      (pickStateFromVideos videos now graceMs).state ≠ LState.none) := by
  unfold pickStateFromVideos
  cases videos.find? Video.isLiveNow with
  | some v => simp
  | none =>
    cases firstMaxBy Sched.t (graceList videos now graceMs) with
    | some p => simp
    | none =>
      cases firstMinBy Sched.t (futureList videos now) with
      | some p => simp
      | none =>
        cases firstMaxBy endKeyOf (completedList videos) with
        | some c => simp
        | none => simp

theorem find?_first_split {α : Type} (p : α → Bool) (l : List α)
    (h : ∃ v ∈ l, p v = true) :
    ∃ l₁ v l₂, l = l₁ ++ v :: l₂ ∧ p v = true ∧
      (∀ u ∈ l₁, p u = false) ∧ l.find? p = some v := by
  induction l with
  | nil => simp at h
  | cons a t ih =>
    cases hp : p a with
    | true =>
      exact ⟨[], a, t, rfl, hp, by simp,
        List.find?_cons_of_pos t hp⟩
    | false =>
      obtain ⟨v, hv, hpv⟩ := h
      rcases List.mem_cons.mp hv with rfl | hvt
      · rw [hp] at hpv; cases hpv
      · obtain ⟨l₁, w, l₂, heq, hpw, hall, hfind⟩ := ih ⟨v, hvt, hpv⟩
        refine ⟨a :: l₁, w, l₂, by rw [heq]; rfl, hpw, ?_, ?_⟩
        · intro u hu
          rcases List.mem_cons.mp hu with rfl | h2
          · exact hp
          · exact hall u h2
        · rw [List.find?_cons_of_neg t (by simp [hp]), hfind]

/-- Claim C1: if some candidate has `actualStartTime` present and
`actualEndTime` absent, the selector returns state `live` with the id
of the first such candidate in input order and `upcomingStartMs`
absent, regardless of other candidates' scheduled times. -/
theorem c1_live_wins_first_in_order (videos : List Video)
    (now graceMs : Int)
    (h : ∃ v ∈ videos, v.actualStartTime.truthy = true ∧
      v.actualEndTime.truthy = false) :
    ∃ l₁ v l₂, videos = l₁ ++ v :: l₂ ∧
      v.actualStartTime.truthy = true ∧
      v.actualEndTime.truthy = false ∧
      (∀ u ∈ l₁, u.isLiveNow = false) ∧
      pickStateFromVideos videos now graceMs =
        ⟨LState.live, some v.id, Option.none⟩ := by
  have h' : ∃ v ∈ videos, Video.isLiveNow v = true := by
    obtain ⟨v, hv, hs, he⟩ := h
    exact ⟨v, hv, by simp [Video.isLiveNow, hs, he]⟩
  obtain ⟨l₁, v, l₂, heq, hp, hall, hfind⟩ :=
    find?_first_split Video.isLiveNow videos h'
  have hp' : v.actualStartTime.truthy = true ∧
      v.actualEndTime.truthy = false := by
    simpa [Video.isLiveNow] using hp
  refine ⟨l₁, v, l₂, heq, hp'.1, hp'.2, hall, ?_⟩
  unfold pickStateFromVideos
  rw [hfind]

/-- Witness for C1 at a concrete two-candidate list: the second
candidate is live (started, not ended), the first is a far-future
scheduled one; the live one is picked. -/
theorem c1_live_wins_first_in_order_witness :
    ∃ l₁ v l₂,
      ([Video.mk "f" (TimeField.parsed 10800000) TimeField.absent
          TimeField.absent,
        Video.mk "a" TimeField.absent (TimeField.parsed 100)
          TimeField.absent] : List Video) = l₁ ++ v :: l₂ ∧
      v.actualStartTime.truthy = true ∧
      v.actualEndTime.truthy = false ∧
      (∀ u ∈ l₁, u.isLiveNow = false) ∧
      pickStateFromVideos
        [Video.mk "f" (TimeField.parsed 10800000) TimeField.absent
          TimeField.absent,
         Video.mk "a" TimeField.absent (TimeField.parsed 100)
          TimeField.absent] 0 600000 =
        ⟨LState.live, some v.id, Option.none⟩ :=
  c1_live_wins_first_in_order _ 0 600000
    ⟨Video.mk "a" TimeField.absent (TimeField.parsed 100)
      TimeField.absent, by simp, rfl, rfl⟩

/-- Claim C2: with no live candidate, the grace rule (largest due
scheduled time within the grace window, not started, not ended) wins
even over future-scheduled candidates; otherwise the future rule picks
the smallest scheduled time strictly after `now`. -/
theorem c2_upcoming_rules (videos : List Video) (now graceMs : Int)
    (hnl : ∀ v ∈ videos, v.isLiveNow = false) :
    ((∃ v ∈ videos, v.actualEndTime.truthy = false ∧
        v.actualStartTime.truthy = false ∧
        ∃ t, v.scheduledStartTime.parseMs = some t ∧ t ≤ now ∧
          now - t ≤ graceMs) →
      ∃ c, c ∈ graceList videos now graceMs ∧
        (∀ x ∈ graceList videos now graceMs, x.t ≤ c.t) ∧
        pickStateFromVideos videos now graceMs =
          ⟨LState.upcoming, some c.id, some c.t⟩) ∧
    (graceList videos now graceMs = [] →
      (∃ v ∈ videos, v.actualEndTime.truthy = false ∧
        ∃ t, v.scheduledStartTime.parseMs = some t ∧ now < t) →
      ∃ c, c ∈ futureList videos now ∧
        (∀ x ∈ futureList videos now, c.t ≤ x.t) ∧
        pickStateFromVideos videos now graceMs =
          ⟨LState.upcoming, some c.id, some c.t⟩) := by
  have hfind : videos.find? Video.isLiveNow = Option.none :=
    List.find?_eq_none.mpr fun x hx => by simp [hnl x hx]
  constructor
  · rintro ⟨v, hv, he, hs, t, hp, h1, h2⟩
    have hc0 : (⟨v.id, t, v.actualStartTime.truthy,
        v.actualEndTime.truthy⟩ : Sched) ∈
        graceList videos now graceMs :=
      (mem_graceList videos now graceMs _).mpr
        ⟨⟨v, hv, hp, rfl, rfl, rfl⟩, he, hs, h1, h2⟩
    have hne : graceList videos now graceMs ≠ [] := by
      intro h0; rw [h0] at hc0; cases hc0
    obtain ⟨m, hm⟩ := firstMaxBy_isSome Sched.t _ hne
    obtain ⟨hmem, hball⟩ := firstMaxBy_spec Sched.t _ m hm
    refine ⟨m, hmem, hball, ?_⟩
    unfold pickStateFromVideos
    rw [hfind, hm]
  · rintro hg ⟨v, hv, he, t, hp, h1⟩
    have hc0 : (⟨v.id, t, v.actualStartTime.truthy,
        v.actualEndTime.truthy⟩ : Sched) ∈ futureList videos now :=
      (mem_futureList videos now _).mpr
        ⟨⟨v, hv, hp, rfl, rfl, rfl⟩, he, h1⟩
    have hne : futureList videos now ≠ [] := by
      intro h0; rw [h0] at hc0; cases hc0
    obtain ⟨m, hm⟩ := firstMinBy_isSome Sched.t _ hne
    obtain ⟨hmem, hball⟩ := firstMinBy_spec Sched.t _ m hm
    refine ⟨m, hmem, hball, ?_⟩
    have hgnone : firstMaxBy Sched.t (graceList videos now graceMs) =
        Option.none := by rw [hg]; rfl
    unfold pickStateFromVideos
    rw [hfind, hgnone, hm]

/-- Witness for C2: first input has a grace candidate (due 4 minutes
ago, 10-minute grace) beating a 3-hour-future candidate; second input
has only future candidates and the soonest (10 minutes) is picked. -/
theorem c2_upcoming_rules_witness :
    (∃ c, c ∈ graceList
        [Video.mk "f" (TimeField.parsed 10800000) TimeField.absent
          TimeField.absent,
         Video.mk "g" (TimeField.parsed (-240000)) TimeField.absent
          TimeField.absent] 0 600000 ∧
      (∀ x ∈ graceList
        [Video.mk "f" (TimeField.parsed 10800000) TimeField.absent
          TimeField.absent,
         Video.mk "g" (TimeField.parsed (-240000)) TimeField.absent
          TimeField.absent] 0 600000, x.t ≤ c.t) ∧
      pickStateFromVideos
        [Video.mk "f" (TimeField.parsed 10800000) TimeField.absent
          TimeField.absent,
         Video.mk "g" (TimeField.parsed (-240000)) TimeField.absent
          TimeField.absent] 0 600000 =
        ⟨LState.upcoming, some c.id, some c.t⟩) ∧
    (∃ c, c ∈ futureList
        [Video.mk "a" (TimeField.parsed 600000) TimeField.absent
          TimeField.absent,
         Video.mk "b" (TimeField.parsed 7200000) TimeField.absent
          TimeField.absent] 0 ∧
      (∀ x ∈ futureList
        [Video.mk "a" (TimeField.parsed 600000) TimeField.absent
          TimeField.absent,
         Video.mk "b" (TimeField.parsed 7200000) TimeField.absent
          TimeField.absent] 0, c.t ≤ x.t) ∧
      pickStateFromVideos
        [Video.mk "a" (TimeField.parsed 600000) TimeField.absent
          TimeField.absent,
         Video.mk "b" (TimeField.parsed 7200000) TimeField.absent
          TimeField.absent] 0 600000 =
        ⟨LState.upcoming, some c.id, some c.t⟩) := by
  constructor
  · exact (c2_upcoming_rules _ 0 600000 (by decide)).1
      ⟨Video.mk "g" (TimeField.parsed (-240000)) TimeField.absent
        TimeField.absent, by simp, rfl, rfl, -240000, rfl,
        by decide, by decide⟩
  · exact (c2_upcoming_rules _ 0 600000 (by decide)).2 (by decide)
      ⟨Video.mk "a" (TimeField.parsed 600000) TimeField.absent
        TimeField.absent, by simp, rfl, 600000, rfl, by decide⟩

/-- The replay ordering as the spec's words state it (claim C3): an
unparseable `actualEndTime` sorts as earliest, strictly below every
parseable one; parseable ones compare by value.  `specEndLE a b` means
`a`'s end time sorts no later than `b`'s.  (This follows the spec's
wording; the code instead treats an unparseable end time as epoch 0,
see `endKeyOf`.) -/
def specEndLE (a b : Video) : Bool :=
  match a.actualEndTime.parseMs, b.actualEndTime.parseMs with
  | Option.none, _ => true
  | some _, Option.none => false
  | some ta, some tb => decide (ta ≤ tb)

/-- Counterexample for C3: the code's replay pick is the candidate
with the unparseable end time (key epoch 0), even though a candidate
with a parseable pre-1970 end time exists; under the claim's ordering
the unparseable one sorts earliest and so must not beat it. -/
theorem c3_counterexample :
    pickStateFromVideos
      [Video.mk "u" TimeField.absent TimeField.absent
        TimeField.unparseable,
       Video.mk "b" TimeField.absent TimeField.absent
        (TimeField.parsed (-1000))] 0 600000 =
      ⟨LState.replay, some "u", Option.none⟩ ∧
    Video.mk "b" TimeField.absent TimeField.absent
      (TimeField.parsed (-1000)) ∈ completedList
      [Video.mk "u" TimeField.absent TimeField.absent
        TimeField.unparseable,
       Video.mk "b" TimeField.absent TimeField.absent
        (TimeField.parsed (-1000))] ∧
    specEndLE
      (Video.mk "b" TimeField.absent TimeField.absent
        (TimeField.parsed (-1000)))
      (Video.mk "u" TimeField.absent TimeField.absent
        TimeField.unparseable) = false := by decide

/-- Claim C3 amended: when no candidate matches the live rule or
either upcoming rule and some candidate has `actualEndTime` present,
the result is `replay` with the id of the completed candidate whose
end-time KEY is largest, where an unparseable end time keys as epoch 0
(not as the earliest value), and `upcomingStartMs` is absent. -/
theorem c3_replay_pick_amended (videos : List Video)
    (now graceMs : Int)
    (hnl : ∀ v ∈ videos, v.isLiveNow = false)
    (hg : graceList videos now graceMs = [])
    (hf : futureList videos now = [])
    (hc : ∃ v ∈ videos, v.actualEndTime.truthy = true) :
    ∃ c, c ∈ completedList videos ∧
      (∀ x ∈ completedList videos, endKeyOf x ≤ endKeyOf c) ∧
      pickStateFromVideos videos now graceMs =
        ⟨LState.replay, some c.id, Option.none⟩ := by
  have hfind : videos.find? Video.isLiveNow = Option.none :=
    List.find?_eq_none.mpr fun x hx => by simp [hnl x hx]
  obtain ⟨v, hv, he⟩ := hc
  have hc0 : v ∈ completedList videos :=
    (mem_completedList videos v).mpr ⟨hv, he⟩
  have hne : completedList videos ≠ [] := by
    intro h0; rw [h0] at hc0; cases hc0
  obtain ⟨m, hm⟩ := firstMaxBy_isSome endKeyOf _ hne
  obtain ⟨hmem, hball⟩ := firstMaxBy_spec endKeyOf _ m hm
  refine ⟨m, hmem, hball, ?_⟩
  have hgnone : firstMaxBy Sched.t (graceList videos now graceMs) =
      Option.none := by rw [hg]; rfl
  have hfnone : firstMinBy Sched.t (futureList videos now) =
      Option.none := by rw [hf]; rfl
  unfold pickStateFromVideos
  rw [hfind, hgnone, hfnone, hm]

/-- Witness for C3 (amended) at a concrete input: two completed
broadcasts, ended at 100 and at 50; the later one (key 100) is the
replay pick. -/
theorem c3_replay_pick_amended_witness :
    ∃ c, c ∈ completedList
        [Video.mk "old" TimeField.absent TimeField.absent
          (TimeField.parsed 50),
         Video.mk "new" TimeField.absent TimeField.absent
          (TimeField.parsed 100)] ∧
      (∀ x ∈ completedList
        [Video.mk "old" TimeField.absent TimeField.absent
          (TimeField.parsed 50),
         Video.mk "new" TimeField.absent TimeField.absent
          (TimeField.parsed 100)], endKeyOf x ≤ endKeyOf c) ∧
      pickStateFromVideos
        [Video.mk "old" TimeField.absent TimeField.absent
          (TimeField.parsed 50),
         Video.mk "new" TimeField.absent TimeField.absent
          (TimeField.parsed 100)] 200 600000 =
        ⟨LState.replay, some c.id, Option.none⟩ :=
  c3_replay_pick_amended _ 200 600000 (by decide) (by decide)
    (by decide)
    ⟨Video.mk "new" TimeField.absent TimeField.absent
      (TimeField.parsed 100), by simp, rfl⟩

/-- Claim C4: a candidate whose `actualEndTime` is set is never the
selected candidate of a `live` or `upcoming` result (ids are unique
within the candidate set, per the spec's data model). -/
theorem c4_ended_never_live_or_upcoming (videos : List Video)
    (now graceMs : Int) (v : Video)
    (hnd : (videos.map Video.id).Nodup)
    (hv : v ∈ videos) (he : v.actualEndTime.truthy = true)
    (hs : (pickStateFromVideos videos now graceMs).state = LState.live ∨
      (pickStateFromVideos videos now graceMs).state =
        LState.upcoming) :
    (pickStateFromVideos videos now graceMs).videoId ≠ some v.id := by
  have hinj := List.inj_on_of_nodup_map hnd
  unfold pickStateFromVideos at hs ⊢
  cases hf : videos.find? Video.isLiveNow with
  | some w =>
    have hw : w ∈ videos := List.mem_of_find?_eq_some hf
    have hlw : Video.isLiveNow w = true := List.find?_some hf
    have hwend : w.actualEndTime.truthy = false := by
      simp [Video.isLiveNow] at hlw; exact hlw.2
    intro hcontra
    injection hcontra with hid
    have hwv : w = v := hinj hw hv hid
    rw [hwv, he] at hwend
    cases hwend
  | none =>
    rw [hf] at hs
    cases hgm : firstMaxBy Sched.t (graceList videos now graceMs) with
    | some p =>
      obtain ⟨hmem, _⟩ := firstMaxBy_spec Sched.t _ p hgm
      rw [mem_graceList] at hmem
      obtain ⟨⟨w, hwv, _, hid, _, hef⟩, hge, _, _, _⟩ := hmem
      intro hcontra
      injection hcontra with hid2
      have hwv2 : w = v := hinj hwv hv (by rw [hid, hid2])
      rw [hwv2, he] at hef
      rw [hge] at hef
      cases hef
    | none =>
      rw [hgm] at hs
      cases hfm : firstMinBy Sched.t (futureList videos now) with
      | some p =>
        obtain ⟨hmem, _⟩ := firstMinBy_spec Sched.t _ p hfm
        rw [mem_futureList] at hmem
        obtain ⟨⟨w, hwv, _, hid, _, hef⟩, hge, _⟩ := hmem
        intro hcontra
        injection hcontra with hid2
        have hwv2 : w = v := hinj hwv hv (by rw [hid, hid2])
        rw [hwv2, he] at hef
        rw [hge] at hef
        cases hef
      | none =>
        rw [hfm] at hs
        cases hcm : firstMaxBy endKeyOf (completedList videos) with
        | some c =>
          rw [hcm] at hs
          simp at hs
        | none =>
          rw [hcm] at hs
          simp at hs

/-- Witness for C4: an ended candidate next to a future-scheduled one;
the result is `upcoming` and its id is not the ended candidate's. -/
theorem c4_ended_never_live_or_upcoming_witness :
    (pickStateFromVideos
      [Video.mk "e" TimeField.absent TimeField.absent
        (TimeField.parsed 50),
       Video.mk "u" (TimeField.parsed 100) TimeField.absent
        TimeField.absent] 0 600000).videoId ≠ some "e" :=
  c4_ended_never_live_or_upcoming
    [Video.mk "e" TimeField.absent TimeField.absent
      (TimeField.parsed 50),
     Video.mk "u" (TimeField.parsed 100) TimeField.absent
      TimeField.absent] 0 600000
    (Video.mk "e" TimeField.absent TimeField.absent
      (TimeField.parsed 50))
    (by decide) (by decide) rfl (Or.inr (by decide))

/-- Counterexample for C10: a candidate due exactly `graceMs` ago is
still inside the (inclusive) grace window, so the returned
`upcomingStartMs` equals `now - graceMs` and is NOT strictly greater
than it. -/
theorem c10_counterexample :
    pickStateFromVideos
      [Video.mk "g" (TimeField.parsed (-600000)) TimeField.absent
        TimeField.absent] 0 600000 =
      ⟨LState.upcoming, some "g", some (-600000)⟩ ∧
    ¬ ((0 : Int) - 600000 < -600000) := by decide

/-- Claim C10 amended: whenever the selector returns `upcoming` (and
`graceMs` is nonnegative, as guaranteed by the clamped `GRACE_MS`
configuration), the returned `upcomingStartMs` is at least
`now - graceMs` — the bound is inclusive, and the value may be less
than or equal to `now` when the grace rule selected the candidate. -/
theorem c10_upcoming_time_lower_bound (videos : List Video)
    (now graceMs : Int) (hg : 0 ≤ graceMs)
    (hs : (pickStateFromVideos videos now graceMs).state =
      LState.upcoming) :
    ∃ t, (pickStateFromVideos videos now graceMs).upcomingStartMs =
      some t ∧ now - graceMs ≤ t := by
  unfold pickStateFromVideos at hs ⊢
  cases hf : videos.find? Video.isLiveNow with
  | some w =>
    rw [hf] at hs
    simp at hs
  | none =>
    rw [hf] at hs
    cases hgm : firstMaxBy Sched.t (graceList videos now graceMs) with
    | some p =>
      obtain ⟨hmem, _⟩ := firstMaxBy_spec Sched.t _ p hgm
      rw [mem_graceList] at hmem
      obtain ⟨_, _, _, h1, h2⟩ := hmem
      exact ⟨p.t, rfl, by omega⟩
    | none =>
      rw [hgm] at hs
      cases hfm : firstMinBy Sched.t (futureList videos now) with
      | some p =>
        obtain ⟨hmem, _⟩ := firstMinBy_spec Sched.t _ p hfm
        rw [mem_futureList] at hmem
        obtain ⟨_, _, h1⟩ := hmem
        exact ⟨p.t, rfl, by omega⟩
      | none =>
        rw [hfm] at hs
        cases hcm : firstMaxBy endKeyOf (completedList videos) with
        | some c =>
          rw [hcm] at hs
          simp at hs
        | none =>
          rw [hcm] at hs
          simp at hs

/-- Witness for C10 (amended): the grace-selected candidate due
exactly at the edge of the window satisfies the inclusive bound. -/
theorem c10_upcoming_time_lower_bound_witness :
    ∃ t, (pickStateFromVideos
      [Video.mk "g" (TimeField.parsed (-600000)) TimeField.absent
        TimeField.absent] 0 600000).upcomingStartMs = some t ∧
      (0 : Int) - 600000 ≤ t :=
  c10_upcoming_time_lower_bound
    [Video.mk "g" (TimeField.parsed (-600000)) TimeField.absent
      TimeField.absent] 0 600000 (by decide) (by decide)

/-- Counterexample for C5: with `upcomingStartMs = 0` (a scheduled
start exactly at the epoch) the JS guard `result.upcomingStartMs && ...`
is falsy, so even though the state is `upcoming` and the time-to-start
is one minute (inside the claimed short tier), the derived lifetime is
the long 600 seconds, not 20. -/
theorem c5_counterexample :
    cacheSecondsFor ⟨LState.upcoming, some "x", some 0⟩ (-60000) 600000
      = 600 ∧
    (0 : Int) < 0 - (-60000) ∧ 0 - (-60000) ≤ 30 * 60 * 1000 ∧
    (600 : Int) ≠ 20 := by decide

/-- Claim C5 amended: the cache-lifetime derivation is exactly tiered
by state and time-to-start PROVIDED `upcomingStartMs` is nonzero (a
zero epoch value is falsy in JS and falls through to the long default
tier): for `upcoming` with `diff = t - now`, 1800 s when `diff > 2h`,
300 s when `30m < diff ≤ 2h` (so `diff = 90m` is medium), 20 s when
`0 < diff ≤ 30m`, 5 s when `diff ≤ 0` within the grace window; `live`
gets the short fixed 10 s and `replay`/`none` get the long 600 s. -/
theorem c5_cache_tiers (res : StateResult) (now graceMs t : Int)
    (hst : res.state = LState.upcoming)
    (hms : res.upcomingStartMs = some t) (ht : t ≠ 0) :
    (2 * 60 * 60 * 1000 < t - now →
      cacheSecondsFor res now graceMs = 1800) ∧
    (30 * 60 * 1000 < t - now → t - now ≤ 2 * 60 * 60 * 1000 →
      cacheSecondsFor res now graceMs = 300) ∧
    (0 < t - now → t - now ≤ 30 * 60 * 1000 →
      cacheSecondsFor res now graceMs = 20) ∧
    (t - now ≤ 0 → now - t ≤ graceMs →
      cacheSecondsFor res now graceMs = 5) ∧
    (∀ r : StateResult, r.state = LState.live →
      cacheSecondsFor r now graceMs = 10) ∧
    (∀ r : StateResult, r.state = LState.replay →
      cacheSecondsFor r now graceMs = 600) ∧
    (∀ r : StateResult, r.state = LState.none →
      cacheSecondsFor r now graceMs = 600) := by
  obtain ⟨st, vid, ms⟩ := res
  simp only at hst hms
  subst hst
  subst hms
  have hfix : ∀ r : StateResult,
      (r.state = LState.live → cacheSecondsFor r now graceMs = 10) ∧
      (r.state = LState.replay → cacheSecondsFor r now graceMs = 600) ∧
      (r.state = LState.none → cacheSecondsFor r now graceMs = 600) := by
    rintro ⟨st', vid', ms'⟩
    refine ⟨?_, ?_, ?_⟩ <;> intro h <;> simp only at h <;> subst h <;>
      cases ms' <;> rfl
  refine ⟨?_, ?_, ?_, ?_, fun r => (hfix r).1, fun r => (hfix r).2.1,
    fun r => (hfix r).2.2⟩ <;>
    simp only [cacheSecondsFor, if_neg ht] <;> intros <;>
    split_ifs <;> omega

/-- Witness for C5 (amended): `upcomingStartMs = now + 90m` lands in
the 300-second medium tier; a live result gets 10 s. -/
theorem c5_cache_tiers_witness :
    cacheSecondsFor ⟨LState.upcoming, some "x", some 5400000⟩ 0 600000
      = 300 ∧
    cacheSecondsFor ⟨LState.live, some "y", Option.none⟩ 0 600000
      = 10 :=
  ⟨(c5_cache_tiers ⟨LState.upcoming, some "x", some 5400000⟩ 0 600000
      5400000 rfl rfl (by decide)).2.1 (by decide) (by decide),
   (c5_cache_tiers ⟨LState.upcoming, some "x", some 5400000⟩ 0 600000
      5400000 rfl rfl (by decide)).2.2.2.2.1
      ⟨LState.live, some "y", Option.none⟩ rfl⟩

/-! ## Request boundary and memoization -/

/-- A response body as emitted by the handlers: the StateResult fields
plus the optional `debugError` field of part_000 lines 124-129. -/
structure RespBody where
  state : LState
  videoId : Option String
  upcomingStartMs : Option Int
  debugError : Option String
deriving DecidableEq, Repr

/-- An HTTP response as far as the handlers shape it: status code,
`Cache-Control` header value, JSON body. -/
structure Response where
  status : Nat
  cacheControl : String
  body : RespBody
deriving DecidableEq, Repr

/-- The `json` helper (part_000 lines 16-23, part_001 lines 30-37):
status, `s-maxage=<n>, stale-while-revalidate=30` cache header, body. -/
def jsonResponse (status : Nat) (body : RespBody)
    (cacheSeconds : Nat) : Response :=
  ⟨status,
    "s-maxage=" ++ toString cacheSeconds ++ ", stale-while-revalidate=30",
    body⟩

/-- The safe default body `{state: none, videoId: null,
upcomingStartMs: null}` with no debug field. -/
def noneBody : RespBody :=
  ⟨LState.none, Option.none, Option.none, Option.none⟩

/-- The request boundary around state computation, from part_000 lines
80-133 (debug-aware catch) and part_001 lines 229-237 (the same
non-debug catch): a successful computation is emitted through `json`;
a failed external call (`Except.error` carries the error message)
yields the safe default cached for 600 s, unless `debug` is set, in
which case the message is surfaced as `debugError` and the response is
marked `no-store`. -/
def requestHandler (debug : Bool)
    (outcome : Except String (RespBody × Nat)) : Response :=
  match outcome with
  | Except.ok (body, secs) => jsonResponse 200 body secs
  | Except.error e =>
    if debug then
      ⟨200, "no-store",
        ⟨LState.none, Option.none, Option.none, some e⟩⟩
    else jsonResponse 200 noneBody 600

/-- Claim C6: whenever an external call fails, the handler returns a
well-formed 200 body with state `none`, absent `videoId` and
`upcomingStartMs`, cached briefly (600 s); with the debug flag set the
error message is surfaced as `debugError` and the response is marked
non-cacheable (`no-store`). -/
theorem c6_error_boundary (debug : Bool) (e : String) :
    (requestHandler debug (Except.error e)).status = 200 ∧
    (requestHandler debug (Except.error e)).body.state = LState.none ∧
    (requestHandler debug (Except.error e)).body.videoId =
      Option.none ∧
    (requestHandler debug (Except.error e)).body.upcomingStartMs =
      Option.none ∧
    (debug = false →
      (requestHandler debug (Except.error e)).body.debugError =
        Option.none ∧
      (requestHandler debug (Except.error e)).cacheControl =
        "s-maxage=600, stale-while-revalidate=30") ∧
    (debug = true →
      (requestHandler debug (Except.error e)).body.debugError =
        some e ∧
      (requestHandler debug (Except.error e)).cacheControl =
        "no-store") := by
  cases debug
  · refine ⟨rfl, rfl, rfl, rfl, fun _ => ⟨rfl, rfl⟩, fun h => ?_⟩
    cases h
  · refine ⟨rfl, rfl, rfl, rfl, fun h => ?_, fun _ => ⟨rfl, rfl⟩⟩
    cases h

/-- Witness for C6 at a concrete error message, in both debug modes. -/
theorem c6_error_boundary_witness :
    ((requestHandler false (Except.error "503 :: upstream")).body.state
        = LState.none ∧
      (requestHandler false
        (Except.error "503 :: upstream")).cacheControl =
        "s-maxage=600, stale-while-revalidate=30") ∧
    ((requestHandler true
        (Except.error "503 :: upstream")).body.debugError =
        some "503 :: upstream" ∧
      (requestHandler true
        (Except.error "503 :: upstream")).cacheControl = "no-store") :=
  ⟨⟨(c6_error_boundary false "503 :: upstream").2.1,
    ((c6_error_boundary false "503 :: upstream").2.2.2.2.1 rfl).2⟩,
   (c6_error_boundary true "503 :: upstream").2.2.2.2.2 rfl⟩

/-- The external-lookup path of `getUploadsPlaylistId` (part_001 lines
49-61): `lookup` holds the value of
`data?.items?.[0]?.contentDetails?.relatedPlaylists?.uploads` from the
channels call, `Option.none` when the chain is missing; the JS guard
`if (!uploads) throw` also fires on an empty string.  Returns
(result, new cached value, whether the external lookup ran). -/
def resolveUploads (cached lookup : Option String) :
    Except String String × Option String × Bool :=
  match lookup with
  | some u =>
    if u = "" then
      (Except.error "Could not resolve uploads playlist ID", cached,
        true)
    else (Except.ok u, some u, true)
  | Option.none =>
    (Except.error "Could not resolve uploads playlist ID", cached,
      true)

/-- `getUploadsPlaylistId` (part_001 lines 46-62) with the
process-lifetime module state `cachedUploadsPlaylistId` passed and
returned explicitly and the external fetch outcome supplied as
`lookup`.  The early return fires when the cached value is truthy
(present and non-empty). -/
def getUploadsPlaylistId (cached lookup : Option String) :
    Except String String × Option String × Bool :=
  match cached with
  | some v =>
    if v = "" then resolveUploads cached lookup
    else (Except.ok v, some v, false)
  | Option.none => resolveUploads cached lookup

/-- Claim C7: when nothing usable is memoized (so the external lookup
actually runs) and the external source yields no uploads playlist
identifier, the call throws and the memoized value stays as it was —
unset stays unset; after any successful call the value is memoized and
every subsequent call returns it without performing the external
lookup. -/
theorem c7_memoization (cached lookup : Option String) :
    ((cached = Option.none ∨ cached = some "") →
      (lookup = Option.none ∨ lookup = some "") →
      getUploadsPlaylistId cached lookup =
        (Except.error "Could not resolve uploads playlist ID", cached,
          true)) ∧
    (∀ v st b, getUploadsPlaylistId cached lookup =
        (Except.ok v, st, b) →
      st = some v ∧
      ∀ lookup2, getUploadsPlaylistId (some v) lookup2 =
        (Except.ok v, some v, false)) := by
  constructor
  · rintro (rfl | rfl) (rfl | rfl) <;>
      simp [getUploadsPlaylistId, resolveUploads]
  · intro v st b h
    have hok : st = some v ∧ v ≠ "" := by
      cases cached with
      | none =>
        cases lookup with
        | none => simp [getUploadsPlaylistId, resolveUploads] at h
        | some u =>
          by_cases hu : u = ""
          · simp [getUploadsPlaylistId, resolveUploads, hu] at h
          · simp [getUploadsPlaylistId, resolveUploads, hu] at h
            obtain ⟨h1, h2, _⟩ := h
            subst h1
            exact ⟨h2.symm, hu⟩
      | some c =>
        by_cases hc : c = ""
        · cases lookup with
          | none => simp [getUploadsPlaylistId, resolveUploads, hc]
              at h
          | some u =>
            by_cases hu : u = ""
            · simp [getUploadsPlaylistId, resolveUploads, hc, hu] at h
            · simp [getUploadsPlaylistId, resolveUploads, hc, hu] at h
              obtain ⟨h1, h2, _⟩ := h
              subst h1
              exact ⟨h2.symm, hu⟩
        · simp [getUploadsPlaylistId, hc] at h
          obtain ⟨h1, h2, _⟩ := h
          subst h1
          exact ⟨h2.symm, hc⟩
    refine ⟨hok.1, fun lookup2 => ?_⟩
    simp [getUploadsPlaylistId, hok.2]

/-- Witness for C7: with nothing cached and a missing uploads field
the call fails and the cache stays unset; after a successful
resolution of "PL1", a later call with a different external value
still returns "PL1" without looking up. -/
theorem c7_memoization_witness :
    getUploadsPlaylistId Option.none Option.none =
      (Except.error "Could not resolve uploads playlist ID",
        Option.none, true) ∧
    getUploadsPlaylistId (some "PL1") (some "OTHER") =
      (Except.ok "PL1", some "PL1", false) :=
  ⟨(c7_memoization Option.none Option.none).1 (Or.inl rfl)
      (Or.inl rfl),
   ((c7_memoization Option.none (some "PL1")).2 "PL1" (some "PL1")
      true rfl).2 (some "OTHER")⟩
